import Mathlib

/-!
Shallow embedding of `units/units.py` (repository DanielSank/units).

Python values are modelled as follows: `fractions.Fraction` and exact
integers become `ℚ`/`ℤ`; Python strings become `String`, with the
character-level splitting helpers operating on `List Char`; functions that
can raise become `Except PyErr`.  Dictionaries (`Unit._map`, the grouping
dict in `parse_tag`) become association lists in insertion order, which is
faithful because every insertion in the source uses a key not yet present
(or `setdefault` which appends to an existing key's list).
-/

deriving instance DecidableEq for Except

attribute [local semireducible] Rat.add Rat.mul Rat.inv Rat.sub

namespace units

/-- Python exceptions raised by the source (or named by the design notes).
`typeMismatchError` is the `TypeError` raised by `Unit.__mul__` /
`Unit.__div__` / `Unit.__pow__` dispatch; `irrationalExponentError` is the
`assert abs(approximation - f) < 1E-10` in `Unit._pow_float`, which the
design document names `IrrationalExponentError`. -/
inductive PyErr where
  | runtimeError
  | valueError
  | zeroDivisionError
  | notImplementedError
  | typeMismatchError
  | irrationalExponentError
deriving DecidableEq

/-- `SI_PREFIXES`: prefix character -> power of ten, in source insertion
order (G, M, k, c, m, u, n, p, a). -/
def SI_PREFIXES : List (Char × ℤ) :=
  [('G', 9), ('M', 6), ('k', 3), ('c', -2), ('m', -3),
   ('u', -6), ('n', -9), ('p', -12), ('a', -15)]

/-- `POWERS_OF_TEN`: the inverse lookup (power of ten -> prefix letter),
built from `SI_PREFIXES`; all values are distinct so the dict inversion is
an injective lookup.  The source queries it with an exact rational whose
denominator is 1, which equals the integer key. -/
def POWERS_OF_TEN (v : ℚ) : Option Char :=
  (SI_PREFIXES.find? (fun kv => decide ((kv.2 : ℚ) = v))).map (fun kv => kv.1)

/-- `SingleDimension` from the source, minus the `equivalence` field: that
field is filled from `DERIVED_UNITS` but is read only by the unfinished,
dead `Unit._reduce`, which no operation modelled here calls. -/
structure SingleDimension where
  glyph : String
  log10_pref : ℚ
  power : ℚ
deriving DecidableEq

/-- `Unit`: `terms` models `Unit._map` (glyph -> SingleDimension, an
insertion-ordered dict) and `log10_pref` the residual power of ten. -/
structure Unit where
  terms : List (String × SingleDimension)
  log10_pref : ℚ
deriving DecidableEq

/-- `Unit.__getitem__`: a missing glyph yields `SingleDimension(key, 0, 0)`. -/
def Unit.get (u : Unit) (g : String) : SingleDimension :=
  (u.terms.lookup g).getD ⟨g, 0, 0⟩

/-- `Unit.__setitem__`.  Every call site in the source assigns a key that is
not yet in the dict, so dict assignment is modelled as an append. -/
def Unit.set (u : Unit) (g : String) (sd : SingleDimension) : Unit :=
  ⟨u.terms ++ [(g, sd)], u.log10_pref⟩

/-! ### Tag splitting (`numerator_denominator` and helpers) -/

/-- Python `str.split(sep)` for a single-character separator: always
returns at least one (possibly empty) piece. -/
def splitOn (sep : Char) : List Char → List (List Char)
  | [] => [[]]
  | c :: rest =>
    if c = sep then [] :: splitOn sep rest
    else
      match splitOn sep rest with
      | [] => [[c]]
      | piece :: pieces => (c :: piece) :: pieces

/-- `re.split("/(?=[^0-9])", part)`: split on each `/` that is immediately
followed by a non-digit character.  A `/` followed by a digit, or at the
end of the string (the lookahead needs a character), does not split and
stays in its piece. -/
def splitSlash : List Char → List (List Char)
  | [] => [[]]
  | '/' :: c :: rest =>
    if c.isDigit then
      match splitSlash (c :: rest) with
      | [] => [['/']]
      | piece :: pieces => ('/' :: piece) :: pieces
    else [] :: splitSlash (c :: rest)
  | c :: rest =>
    match splitSlash rest with
    | [] => [[c]]
    | piece :: pieces => (c :: piece) :: pieces

/-- `numerator_denominator` from the source: split the tag on `*`; split
each segment with the slash rule; if the first piece of a segment is
non-empty it goes to the numerator and the remaining pieces go to the
denominator, otherwise the whole segment contributes nothing. -/
def nd_step (acc : List String × List String) (part : List Char) :
    List String × List String :=
  match splitSlash part with
  | [] => acc
  | first :: rest =>
    if first ≠ [] then
      (acc.1 ++ [(⟨first⟩ : String)], acc.2 ++ rest.map (fun l => (⟨l⟩ : String)))
    else acc

def numerator_denominator (tag : String) : List String × List String :=
  (splitOn '*' tag.toList).foldl nd_step ([], [])

/-! ### Single-dimension token parsing -/

/-- Digits-only string to `ℕ` (used by the `Fraction` string model). -/
def digits_to_nat (l : List Char) : Option ℕ :=
  if l ≠ [] ∧ l.all Char.isDigit then
    some (l.foldl (fun n c => 10 * n + (c.toNat - 48)) 0)
  else none

/-- `fractions.Fraction(string)` restricted to the forms a unit tag can
produce: an optional sign, an integer, and an optional `/integer`.
`Fraction("a/0")` raises `ZeroDivisionError`; anything else malformed
raises `ValueError`. -/
def parseFraction (s : List Char) : Except PyErr ℚ :=
  let sr : ℚ × List Char :=
    match s with
    | '-' :: r => (-1, r)
    | '+' :: r => (1, r)
    | r => (1, r)
  match splitOn '/' sr.2 with
  | [n] =>
    match digits_to_nat n with
    | some a => .ok (sr.1 * a)
    | none => .error .valueError
  | [n, d] =>
    match digits_to_nat n, digits_to_nat d with
    | some a, some b =>
      if b = 0 then .error .zeroDivisionError else .ok (sr.1 * a / b)
    | _, _ => .error .valueError
  | _ => .error .valueError

/-- `get_prefix` from the source: `"m"` is special-cased to (no prefix,
`"m"`); otherwise scan `SI_PREFIXES` in order for a leading prefix letter;
a glyph that is exactly a prefix letter (or empty, where the matched
length 0 equals the glyph length) raises `RuntimeError`. -/
def get_prefix (g : List Char) : Except PyErr (Option Char × List Char) :=
  if g = ['m'] then .ok (none, ['m'])
  else
    match SI_PREFIXES.find? (fun kv => decide (g.take 1 = [kv.1])) with
    | some kv =>
      if g.length = 1 then .error .runtimeError else .ok (some kv.1, g.drop 1)
    | none =>
      if g.length = 0 then .error .runtimeError else .ok (none, g)

/-- `SI_PREFIXES[prefix]`; total because it is only queried with a prefix
returned by ` get_prefix`, which always is a key. -/
def SI_value (c : Char) : ℤ :=
  (SI_PREFIXES.lookup c).getD 0

/-- `parse_one_dimensional_tag`: split the token on `^` (one optional
exponent), strip the prefix, and scale the prefix's power of ten by the
power.  More than one `^` raises `RuntimeError`. -/
def parse_one_dimensional_tag (t : List Char) : Except PyErr (ℚ × String × ℚ) :=
  match splitOn '^' t with
  | [letters] => do
    let pb ← get_prefix letters
    let power : ℚ := 1
    match pb.1 with
    | some c => .ok ((SI_value c : ℚ) * power, (⟨pb.2⟩ : String), power)
    | none => .ok (0, (⟨pb.2⟩ : String), power)
  | [letters, exponent] => do
    let pb ← get_prefix letters
    let power ← parseFraction exponent
    match pb.1 with
    | some c => .ok ((SI_value c : ℚ) * power, (⟨pb.2⟩ : String), power)
    | none => .ok (0, (⟨pb.2⟩ : String), power)
  | _ => .error .runtimeError

/-! ### `parse_tag` -/

/-- A parsed triple `(log10_pref, base_glyph, power)` with the denominator
sign already applied. -/
abbrev Triple := ℚ × String × ℚ

/-- Apply the numerator/denominator sign factor to a parsed triple
(`power = power * factor; log10_pref = log10_pref * factor`). -/
def apply_factor (factor : ℚ) (r : Triple) : Triple :=
  (r.1 * factor, r.2.1, r.2.2 * factor)

/-- The token-parsing loop of `parse_tag`: parse every numerator token with
factor 1, then every denominator token with factor -1, in source order,
stopping at the first failure. -/
def signed_triples (tag : String) : Except PyErr (List Triple) := do
  let nd := numerator_denominator tag
  let ts1 ← nd.1.mapM (fun t => do
    let r ← parse_one_dimensional_tag t.toList
    .ok (apply_factor 1 r))
  let ts2 ← nd.2.mapM (fun t => do
    let r ← parse_one_dimensional_tag t.toList
    .ok (apply_factor (-1) r))
  .ok (ts1 ++ ts2)

/-- `all_tags.setdefault(base_glyph, []).append((log10_pref, power))`:
append the pair to the glyph's list, creating the key at the end on first
occurrence. -/
def add_to_group (acc : List (String × List (ℚ × ℚ))) (g : String) (pr : ℚ × ℚ) :
    List (String × List (ℚ × ℚ)) :=
  match acc with
  | [] => [(g, [pr])]
  | (k, l) :: rest =>
    if k = g then (k, l ++ [pr]) :: rest else (k, l) :: add_to_group rest g pr

/-- The grouping dict `all_tags` built by `parse_tag`. -/
def groupsOf (ts : List Triple) : List (String × List (ℚ × ℚ)) :=
  ts.foldl (fun acc t => add_to_group acc t.2.1 (t.1, t.2.2)) []

/-- The final loop of `parse_tag`: per glyph, sum the powers of ten and the
powers; a fully cancelled glyph (`power == 0`) with a nonzero power of ten
folds into the residual; a glyph with nonzero power becomes a term. -/
def finalize_step (u : Unit) (kv : String × List (ℚ × ℚ)) : Unit :=
  let log10_pref := (kv.2.map Prod.fst).sum
  let power := (kv.2.map Prod.snd).sum
  if log10_pref ≠ 0 ∧ power = 0 then ⟨u.terms, u.log10_pref + log10_pref⟩
  else if power ≠ 0 then u.set kv.1 ⟨kv.1, log10_pref, power⟩
  else u

def finalize (gs : List (String × List (ℚ × ℚ))) : Unit :=
  gs.foldl finalize_step ⟨[], 0⟩

/-- `parse_tag` composed with the unpacking done by `Unit.__init__` (pop
the `'log10_pref'` entry into the residual, keep the glyph dict). -/
def parse_tag (tag : String) : Except PyErr Unit := do
  let ts ← signed_triples tag
  .ok (finalize (groupsOf ts))

/-! ### Arithmetic (`Unit.__mul__`, `__div__`, `__pow__`) -/

/-- A Python value appearing as the right operand of a Unit operation. -/
inductive PyVal where
  | unit (u : Unit)
  | int (n : ℤ)
  | frac (q : ℚ)
  | float (q : ℚ)
  | str (s : String)

/-- `Unit._mul_Unit(self, other, factor)`: merge `other`'s glyphs into a
fresh result (summing powers and powers of ten, folding a glyph whose
combined power is 0 but whose combined power of ten is nonzero into the
result's residual), carry `self`-only glyphs through, then add `self`'s
residual power of ten.  The source never adds `other.log10_pref`.
`processed` is the `processed_glyphs` set, which after the first loop
holds exactly `other`'s glyphs. -/
def mul_merge_step (self other : Unit) (factor : ℚ) (r : Unit)
    (kv : String × SingleDimension) : Unit :=
  let self_dim := self.get kv.1
  let other_dim := other.get kv.1
  let power := factor * other_dim.power + self_dim.power
  let log10_pref := factor * other_dim.log10_pref + self_dim.log10_pref
  if power = 0 ∧ log10_pref ≠ 0 then ⟨r.terms, r.log10_pref + log10_pref⟩
  else if power ≠ 0 then r.set kv.1 ⟨kv.1, log10_pref, power⟩
  else r

/-- The second loop of `_mul_Unit`: carry a `self` glyph through unchanged
unless it was already processed in the first loop. -/
def mul_carry_step (self : Unit) (processed : List String) (r : Unit)
    (kv : String × SingleDimension) : Unit :=
  if processed.contains kv.1 then r
  else
    let dim := self.get kv.1
    r.set kv.1 ⟨dim.glyph, dim.log10_pref, dim.power⟩

def mul_Unit (self other : Unit) (factor : ℚ) : Unit :=
  let r1 := other.terms.foldl (mul_merge_step self other factor) ⟨[], 0⟩
  let processed := other.terms.map Prod.fst
  let r2 := self.terms.foldl (mul_carry_step self processed) r1
  ⟨r2.terms, r2.log10_pref + self.log10_pref⟩

/-- `Unit.__mul__`: only a Unit operand is accepted; anything else raises
`TypeError` ("Unit cannot multiply with type ..."), the error the design
document calls `TypeMismatchError`. -/
def unit_mul (self : Unit) (other : PyVal) : Except PyErr Unit :=
  match other with
  | .unit u => .ok (mul_Unit self u 1)
  | _ => .error .typeMismatchError

/-- `Unit.__div__`: `_div_Unit` is `_mul_Unit` with `factor = -1`; a
non-Unit operand raises the same `TypeError`. -/
def unit_div (self : Unit) (other : PyVal) : Except PyErr Unit :=
  match other with
  | .unit u => .ok (mul_Unit self u (-1))
  | _ => .error .typeMismatchError

/-- `Unit._pow_rational`: scale every term's power and power of ten by `n`
(terms are kept even when `n = 0`), and scale the residual by `n`. -/
def pow_step (self : Unit) (n : ℚ) (r : Unit)
    (kv : String × SingleDimension) : Unit :=
  let sd := self.get kv.1
  r.set kv.1 ⟨kv.1, sd.log10_pref * n, sd.power * n⟩

def pow_rational (self : Unit) (n : ℚ) : Unit :=
  let r := self.terms.foldl (pow_step self n) ⟨[], 0⟩
  ⟨r.terms, self.log10_pref * n⟩

/-- `Unit._pow_float`, with the Python float `f` embedded as the exact
rational it denotes.  `int(math.floor(f))` is `⌊f⌋`; a zero fractional
part makes `1.0/fractional_part` raise `ZeroDivisionError`; otherwise
`int(1.0/fractional_part)` truncates toward zero, which for this positive
value is the floor.  The float arithmetic computing `approximation` and the
`1E-10` tolerance comparison are idealized as exact rational arithmetic.
The out-of-tolerance `assert` is the failure the design document calls
`IrrationalExponentError`. -/
def pow_float (self : Unit) (f : ℚ) : Except PyErr Unit :=
  let integer_part : ℤ := f.floor
  let fractional_part : ℚ := f - integer_part
  if fractional_part = 0 then .error .zeroDivisionError
  else
    let denominator : ℤ := (1 / fractional_part).floor
    let approximation : ℚ := (integer_part : ℚ) + 1 / (denominator : ℚ)
    if |approximation - f| < 1 / 10 ^ 10 then
      .ok (pow_rational self ((integer_part : ℚ) + 1 / (denominator : ℚ)))
    else .error .irrationalExponentError

/-- `Unit.__pow__`: int and Fraction exponents go to `_pow_rational`,
float exponents to `_pow_float`, anything else raises `TypeError`. -/
def unit_pow (self : Unit) (p : PyVal) : Except PyErr Unit :=
  match p with
  | .int n => .ok (pow_rational self (n : ℚ))
  | .frac q => .ok (pow_rational self q)
  | .float q => pow_float self q
  | _ => .error .typeMismatchError

/-! ### Equality (`Unit.__eq__`) -/

/-- `SingleDimension.__eq__` raises `NotImplementedError` on its first
line (the structural comparison below that line is dead code). -/
def sd_eq (_x _y : SingleDimension) : Except PyErr Bool :=
  .error .notImplementedError

/-- One step of CPython dict equality: walk `a`'s items in order, look
each key up in `b`, and compare values with `SingleDimension.__eq__`.
CPython's identity fast path never fires here because every
`SingleDimension` compared by the claims is a separately constructed
object. -/
def dict_eq_go (b : List (String × SingleDimension)) :
    List (String × SingleDimension) → Except PyErr Bool
  | [] => .ok true
  | kv :: rest =>
    match b.lookup kv.1 with
    | none => .ok false
    | some w => do
      let e ← sd_eq kv.2 w
      if e then dict_eq_go b rest else .ok false

/-- CPython dict equality `self._map == other._map`: size check first,
then item-wise comparison. -/
def dict_eq (a b : List (String × SingleDimension)) : Except PyErr Bool :=
  if a.length ≠ b.length then .ok false else dict_eq_go b a

/-- `Unit.__eq__`: dict comparison of the term maps (which can raise), then
comparison of the residual powers of ten. -/
def unit_eq (self other : Unit) : Except PyErr Bool := do
  let maps_eq ← dict_eq self.terms other.terms
  .ok (maps_eq && decide (self.log10_pref = other.log10_pref))

/-- Mathematical (order-insensitive) equality of the term dicts and the
residuals: what CPython dict equality would decide if
`SingleDimension.__eq__` were the structural comparison its dead code
spells out.  Association lists here always have unique keys, so equal
length plus pointwise lookup agreement is dict equality. -/
def unit_equiv (a b : Unit) : Bool :=
  decide (a.log10_pref = b.log10_pref) &&
    a.terms.length == b.terms.length &&
    a.terms.all (fun kv => b.terms.lookup kv.1 == some kv.2)

/-! ### Rendering (`Unit.__str__`) -/

/-- `str()` of an exact rational (`fractions.Fraction.__str__`): the
numerator alone when the denominator is 1, else `num/den`. -/
def render_power (q : ℚ) : String :=
  if q.den = 1 then toString q.num else toString q.num ++ "/" ++ toString q.den

/-- `Unit.__str__`: per term, try to express its power of ten as an SI
prefix (possible when `log10_pref / power` is an integer that is a known
prefix exponent); otherwise fold the term's power of ten into the leftover
accumulator, which starts at the residual.  Terms are joined with `*`; a
nonzero leftover prepends `10^n `. -/
def unit_str (u : Unit) : String :=
  let acc := u.terms.foldl
    (fun (acc : ℚ × List String) kv =>
      let sd := kv.2
      let log10_pref := sd.log10_pref
      let power := sd.power
      let glyph := sd.glyph
      let pr : ℚ × String :=
        if log10_pref = 0 then (acc.1, "")
        else if (log10_pref / power).den = 1 then
          match POWERS_OF_TEN (log10_pref / power) with
          | some c => (acc.1, (⟨[c]⟩ : String))
          | none => (acc.1 + log10_pref, "")
        else (acc.1 + log10_pref, "")
      let parts :=
        if power = 1 then acc.2 ++ ["*", pr.2, glyph]
        else acc.2 ++ ["*", pr.2, glyph, "^", render_power power]
      (pr.1, parts))
    (u.log10_pref, [])
  let parts := acc.2.drop 1
  let parts := if acc.1 ≠ 0 then ("10^" ++ render_power acc.1 ++ " ") :: parts else parts
  String.join parts

/-! ### Definitions used to state the claims -/

/-- The canonical-form invariant of the design: every live term has a
nonzero power. -/
def terms_invariant (u : Unit) : Prop :=
  ∀ kv ∈ u.terms, kv.2.power ≠ 0

instance (u : Unit) : Decidable (terms_invariant u) :=
  List.decidableBAll _ u.terms

/-- The slash splitter exactly as claim C9 words it ("splits ... on '/'
characters not immediately followed by a digit"): unlike the source's
regex, whose lookahead needs a following character, this splits at a
trailing slash as well. -/
def splitSlashClaim : List Char → List (List Char)
  | [] => [[]]
  | '/' :: c :: rest =>
    if c.isDigit then
      match splitSlashClaim (c :: rest) with
      | [] => [['/']]
      | piece :: pieces => ('/' :: piece) :: pieces
    else [] :: splitSlashClaim (c :: rest)
  | ['/'] => [[], []]
  | c :: rest =>
    match splitSlashClaim rest with
    | [] => [[c]]
    | piece :: pieces => (c :: piece) :: pieces

/-- The splitter exactly as claim C9 words it: per segment, "the first
non-empty piece" goes to the numerator and "all subsequent pieces" go to
the denominator. -/
def numerator_denominatorClaim (tag : String) : List String × List String :=
  (splitOn '*' tag.toList).foldl
    (fun acc part =>
      match (splitSlashClaim part).dropWhile (fun p => decide (p = [])) with
      | [] => acc
      | first :: rest =>
        (acc.1 ++ [(⟨first⟩ : String)], acc.2 ++ rest.map (fun l => (⟨l⟩ : String))))
    ([], [])

/-- A concrete representative set of supported base glyphs, bare and
SI-prefixed, for the round-trip claim. -/
def base_glyphs : List String :=
  ["m", "s", "Hz", "V", "K", "B", "A", "km", "us", "ns", "MHz",
   "kB", "cm", "GHz", "mm", "ps", "aF"]

/-- The small integer powers for the round-trip claim. -/
def small_powers : List ℤ := [-3, -2, -1, 0, 1, 2, 3]

/-- `parse(to_string(parse(g + "^" + p))) == parse(g + "^" + p)`, with
equality the canonical/structural one (both sides have at most one term,
so association-list equality is dict equality). -/
def round_trips (g : String) (p : ℤ) : Bool :=
  match parse_tag (g ++ "^" ++ toString p) with
  | .ok u =>
    match parse_tag (unit_str u) with
    | .ok v => v == u
    | .error _ => false
  | .error _ => false

/-- The summed power of a glyph over all of a tag's signed triples
(numerator occurrences +, denominator occurrences -). -/
def trip_power (ts : List Triple) (g : String) : ℚ :=
  ((ts.filter (fun t => decide (t.2.1 = g))).map (fun t => t.2.2)).sum

/-- The summed power of ten of a glyph over all of a tag's signed
triples. -/
def trip_log10 (ts : List Triple) (g : String) : ℚ :=
  ((ts.filter (fun t => decide (t.2.1 = g))).map (fun t => t.1)).sum

/-- The (power of ten, power) pairs a glyph contributes, in order: what
`all_tags[glyph]` holds after the grouping loop. -/
def trip_pairs (ts : List Triple) (g : String) : List (ℚ × ℚ) :=
  (ts.filter (fun t => decide (t.2.1 = g))).map (fun t => (t.1, t.2.2))

/-- What `parse_tag`'s final loop emits for one grouped glyph: a term when
the summed power is nonzero, nothing otherwise. -/
def fin_term (kv : String × List (ℚ × ℚ)) : Option (String × SingleDimension) :=
  if (kv.2.map Prod.snd).sum ≠ 0 then
    some (kv.1, ⟨kv.1, (kv.2.map Prod.fst).sum, (kv.2.map Prod.snd).sum⟩)
  else none

/-- What `parse_tag`'s final loop adds to the residual for one grouped
glyph: its summed power of ten when the summed power is zero.  (The source
guards on `log10_pref != 0` as well, but adding zero is the same.) -/
def fin_residual (kv : String × List (ℚ × ℚ)) : ℚ :=
  if (kv.2.map Prod.snd).sum = 0 then (kv.2.map Prod.fst).sum else 0

/-- The numerator token a multiplied segment contributes: its first piece,
when that piece is non-empty. -/
def nd_first_token (part : List Char) : Option String :=
  match splitSlash part with
  | [] => none
  | first :: _ => if first ≠ [] then some (⟨first⟩ : String) else none

/-- The denominator tokens a multiplied segment contributes: the pieces
after the first, provided the first piece is non-empty (a segment with an
empty first piece contributes nothing at all). -/
def nd_rest_tokens (part : List Char) : List String :=
  match splitSlash part with
  | [] => []
  | first :: rest =>
    if first ≠ [] then rest.map (fun l => (⟨l⟩ : String)) else []

end units

/-!
Model validation: the embedding reproduces the repository's own test
vectors (`test/test-units.py`, `test_parse_tag` and `test_multiplication`)
and the examples in the design document.
-/

namespace units

/-- `test_parse_tag`: the parsed forms of the repository's test tags. -/
theorem model_check_parse_tag :
    parse_tag "kB/MB" = .ok ⟨[], -3⟩ ∧
    parse_tag "" = .ok ⟨[], 0⟩ ∧
    parse_tag "V" = .ok ⟨[("V", ⟨"V", 0, 1⟩)], 0⟩ ∧
    parse_tag "kY^1/2/Y^1/2" = .ok ⟨[], 3/2⟩ ∧
    parse_tag "MY^-3/2/Y^-3/2" = .ok ⟨[], -9⟩ ∧
    parse_tag "km^1/3" = .ok ⟨[("m", ⟨"m", 1, 1/3⟩)], 0⟩ ∧
    parse_tag "kHz/Hz^1/2" = .ok ⟨[("Hz", ⟨"Hz", 3, 1/2⟩)], 0⟩ ∧
    parse_tag "V/Hz^1/2" =
      .ok ⟨[("V", ⟨"V", 0, 1⟩), ("Hz", ⟨"Hz", 0, -(1/2)⟩)], 0⟩ := by
  refine ⟨by decide, by decide, by decide, by decide, by decide, by decide,
    by decide, by decide⟩

/-- `test_numerator_denominator` and the design document's splitter
example. -/
theorem model_check_numerator_denominator :
    numerator_denominator "V/Hz^1/2" = (["V"], ["Hz^1/2"]) ∧
    numerator_denominator "km/ns^1/3" = (["km"], ["ns^1/3"]) ∧
    numerator_denominator "s*m^2/Hz/K^3/4*L/s" =
      (["s", "m^2", "L"], ["Hz", "K^3/4", "s"]) := by
  refine ⟨by decide, by decide, by decide⟩

/-- `test_multiplication`, up to dict (order-insensitive) equality of the
term maps: `m * Hz == Unit('m*Hz')` and `Hz * Hz^1/2 == Unit('Hz^3/2')`. -/
theorem model_check_multiplication :
    ((parse_tag "m").bind (fun a =>
      (parse_tag "Hz").map (fun b => mul_Unit a b 1))).map
        (fun r => (parse_tag "m*Hz").map (unit_equiv r)) = .ok (.ok true) ∧
    ((parse_tag "Hz").bind (fun a =>
      (parse_tag "Hz^1/2").map (fun b => mul_Unit a b 1))).map
        (fun r => (parse_tag "Hz^3/2").map (unit_equiv r)) = .ok (.ok true) := by
  refine ⟨by decide, by decide⟩

/-- Rendering cases: a representable prefix, a negative power, and a
residual-only unit. -/
theorem model_check_render :
    (parse_tag "km^2").map unit_str = .ok "km^2" ∧
    (parse_tag "m/s").map unit_str = .ok "m*s^-1" ∧
    (parse_tag "kB/MB").map unit_str = .ok "10^-3 " := by
  refine ⟨by decide, by decide, by decide⟩

end units

namespace units

/-! ## Claim theorems -/

/-! ### Helper lemmas -/

/-- A fold whose step fixes every accumulator leaves the initial value
unchanged. -/
theorem foldl_fixed {α β : Type} (f : β → α → β) (l : List α) (init : β)
    (h : ∀ b a, a ∈ l → f b a = b) : l.foldl f init = init := by
  induction l generalizing init with
  | nil => rfl
  | cons x xs ih =>
    rw [List.foldl_cons, h init x (List.mem_cons_self x xs)]
    exact ih init (fun b a ha => h b a (List.mem_cons_of_mem x ha))

/-- A fold whose step preserves the canonical invariant preserves it. -/
theorem foldl_terms_invariant {α : Type} (step : Unit → α → Unit) (l : List α)
    (init : Unit)
    (hstep : ∀ r a, a ∈ l → terms_invariant r → terms_invariant (step r a))
    (h : terms_invariant init) : terms_invariant (l.foldl step init) := by
  induction l generalizing init with
  | nil => exact h
  | cons x xs ih =>
    exact ih (step init x)
      (fun r a ha => hstep r a (List.mem_cons_of_mem x ha))
      (hstep init x (List.mem_cons_self x xs) h)

/-- A key of an entry of an association list is found by `lookup`, and the
value found is itself an entry's value for that key. -/
theorem lookup_some_of_mem {l : List (String × SingleDimension)}
    {kv : String × SingleDimension} (h : kv ∈ l) :
    ∃ v, l.lookup kv.1 = some v ∧ (kv.1, v) ∈ l := by
  induction l with
  | nil => cases h
  | cons x xs ih =>
    by_cases hk : kv.1 = x.1
    · refine ⟨x.2, ?_, ?_⟩
      · have hb : (kv.1 == x.1) = true := beq_iff_eq.mpr hk
        simp [List.lookup, hb]
      · rw [hk]
        exact List.mem_cons_self x xs
    · rcases List.mem_cons.mp h with he | hm
      · exact absurd (congrArg Prod.fst he) hk
      · obtain ⟨v, hv, hmem⟩ := ih hm
        have hb : (kv.1 == x.1) = false := beq_eq_false_iff_ne.mpr hk
        refine ⟨v, ?_, List.mem_cons_of_mem x hmem⟩
        simp [List.lookup, hb, hv]

/-- Under the invariant, `self[glyph]` for a glyph of one of `self`'s own
entries has nonzero power. -/
theorem get_power_ne_zero_of_mem (self : Unit) (hself : terms_invariant self)
    {kv : String × SingleDimension} (h : kv ∈ self.terms) :
    (self.get kv.1).power ≠ 0 := by
  obtain ⟨v, hv, hmem⟩ := lookup_some_of_mem h
  rw [Unit.get, hv]
  exact hself (kv.1, v) hmem

/-- Assigning a term with nonzero power preserves the invariant. -/
theorem terms_invariant_set (u : Unit) (g : String) (sd : SingleDimension)
    (hu : terms_invariant u) (hsd : sd.power ≠ 0) :
    terms_invariant (u.set g sd) := by
  intro kv hkv
  rw [Unit.set] at hkv
  rcases List.mem_append.mp hkv with h | h
  · exact hu kv h
  · rw [List.mem_singleton.mp h]
    exact hsd

/-- The merge loop of `_mul_Unit` only ever stores terms with nonzero
power. -/
theorem mul_merge_step_invariant (self other : Unit) (factor : ℚ)
    (r : Unit) (kv : String × SingleDimension) (hr : terms_invariant r) :
    terms_invariant (mul_merge_step self other factor r kv) := by
  unfold mul_merge_step
  dsimp only
  split
  · exact hr
  · split
    · next h2 => exact terms_invariant_set r _ _ hr h2
    · exact hr

/-- The carry loop of `_mul_Unit` copies `self`'s own terms, whose powers
are nonzero when `self` satisfies the invariant. -/
theorem mul_carry_step_invariant (self : Unit) (processed : List String)
    (hself : terms_invariant self) (r : Unit)
    (kv : String × SingleDimension) (hkv : kv ∈ self.terms)
    (hr : terms_invariant r) :
    terms_invariant (mul_carry_step self processed r kv) := by
  unfold mul_carry_step
  dsimp only
  split
  · exact hr
  · exact terms_invariant_set r _ _ hr (get_power_ne_zero_of_mem self hself hkv)

/-- `parse_tag`'s final loop only stores terms under its `power != 0`
guard. -/
theorem finalize_step_invariant (u : Unit) (kv : String × List (ℚ × ℚ))
    (hu : terms_invariant u) : terms_invariant (finalize_step u kv) := by
  unfold finalize_step
  dsimp only
  split
  · exact hu
  · split
    · next h2 => exact terms_invariant_set u _ _ hu h2
    · exact hu

/-- Any `finalize` result satisfies the canonical invariant. -/
theorem terms_invariant_finalize (gs : List (String × List (ℚ × ℚ))) :
    terms_invariant (finalize gs) :=
  foldl_terms_invariant finalize_step gs ⟨[], 0⟩
    (fun r a _ hr => finalize_step_invariant r a hr) (by decide)

/-- `_mul_Unit` (any factor, hence both multiplication and division)
preserves the canonical invariant of its left operand. -/
theorem terms_invariant_mul_Unit (self other : Unit) (factor : ℚ)
    (hself : terms_invariant self) :
    terms_invariant (mul_Unit self other factor) := by
  unfold mul_Unit
  dsimp only
  have h1 : terms_invariant
      (other.terms.foldl (mul_merge_step self other factor) ⟨[], 0⟩) :=
    foldl_terms_invariant _ _ _
      (fun r a _ hr => mul_merge_step_invariant self other factor r a hr)
      (by decide)
  have h2 : terms_invariant
      (self.terms.foldl (mul_carry_step self (other.terms.map Prod.fst))
        (other.terms.foldl (mul_merge_step self other factor) ⟨[], 0⟩)) :=
    foldl_terms_invariant _ _ _
      (fun r a ha hr => mul_carry_step_invariant self _ hself r a ha hr) h1
  exact fun kv hkv => h2 kv hkv

/-- `_pow_rational` with a nonzero exponent preserves the invariant. -/
theorem terms_invariant_pow_rational (u : Unit) (n : ℚ)
    (hu : terms_invariant u) (hn : n ≠ 0) :
    terms_invariant (pow_rational u n) := by
  unfold pow_rational
  dsimp only
  have h1 : terms_invariant (u.terms.foldl (pow_step u n) ⟨[], 0⟩) := by
    refine foldl_terms_invariant _ _ _ ?_ (by decide)
    intro r a ha hr
    unfold pow_step
    dsimp only
    exact terms_invariant_set r _ _ hr
      (mul_ne_zero (get_power_ne_zero_of_mem u hu ha) hn)
  exact fun kv hkv => h1 kv hkv

/-- C1: multiplying `Unit('m')` by `Unit('kB/MB')` (residual power of ten
-3) yields a residual of 0: `_mul_Unit` adds only `self.log10_pref` to the
result, so the right operand's residual is dropped instead of summed as
the claim states (0 + (-3) = -3 ≠ 0). -/
theorem C1_mul_drops_rhs_residual :
    parse_tag "m" = .ok ⟨[("m", ⟨"m", 0, 1⟩)], 0⟩ ∧
    parse_tag "kB/MB" = .ok ⟨[], -3⟩ ∧
    unit_mul ⟨[("m", ⟨"m", 0, 1⟩)], 0⟩ (.unit ⟨[], -3⟩) =
      .ok ⟨[("m", ⟨"m", 0, 1⟩)], 0⟩ ∧
    (0 : ℚ) ≠ 0 + -3 := by
  refine ⟨by decide, by decide, by decide, by decide⟩

/-- C2: comparing `Unit('m')` with a separately constructed `Unit('m')`
raises `NotImplementedError` instead of returning `True`: dict equality
compares the two distinct `SingleDimension` objects for the shared key
`'m'`, and `SingleDimension.__eq__` raises unconditionally. -/
theorem C2_eq_raises :
    ∃ u, parse_tag "m" = .ok u ∧ unit_eq u u = .error .notImplementedError :=
  ⟨⟨[("m", ⟨"m", 0, 1⟩)], 0⟩, by decide, by decide⟩

/-- C5 counterexample: raising the dimensionless unit to the float 2.0
fails with `ZeroDivisionError` (the reciprocal of the zero fractional
part), which is neither success nor `IrrationalExponentError` — refuting
the claim's "never any other failure mode". -/
theorem C5_integer_float_cx :
    unit_pow ⟨[], 0⟩ (PyVal.float 2) = .error .zeroDivisionError ∧
    PyErr.zeroDivisionError ≠ PyErr.irrationalExponentError := by
  refine ⟨by decide, by decide⟩

/-- C5 amended: for every unit and float exponent `f`, `_pow_float` either
(a) has `f` with zero fractional part (an integer, `den = 1`) and fails
with `ZeroDivisionError`, or (b) succeeds, delegating to `_pow_rational`
at a rational approximation within 1e-10 of `f` (integer part plus the
truncated reciprocal of the fractional part), or (c) fails with the
out-of-tolerance assertion, the design's `IrrationalExponentError`. -/
theorem C5_pow_float_trichotomy (u : Unit) (f : ℚ) :
    (f.den = 1 ∧ pow_float u f = .error .zeroDivisionError) ∨
    (∃ q : ℚ, |q - f| < 1 / 10 ^ 10 ∧ pow_float u f = .ok (pow_rational u q)) ∨
    pow_float u f = .error .irrationalExponentError := by
  unfold pow_float
  dsimp only
  by_cases h0 : f - (f.floor : ℚ) = 0
  · left
    constructor
    · have hf : f = (f.floor : ℚ) := by linarith
      rw [hf, Rat.den_intCast]
    · rw [if_pos h0]
  · by_cases h1 :
      |(f.floor : ℚ) + 1 / (((1 : ℚ) / (f - (f.floor : ℚ))).floor : ℚ) - f| <
        1 / 10 ^ 10
    · right; left
      refine ⟨(f.floor : ℚ) + 1 / (((1 : ℚ) / (f - (f.floor : ℚ))).floor : ℚ),
        h1, ?_⟩
      rw [if_neg h0, if_pos h1]
    · right; right
      rw [if_neg h0, if_neg h1]

/-- C6 counterexample: `Unit('m') ** 0` keeps the glyph `m` as a term with
power 0: `_pow_rational` stores every scaled term unconditionally, so the
`power != 0` invariant fails at the boundary case `n = 0`. -/
theorem C6_pow_zero_cx :
    parse_tag "m" = .ok ⟨[("m", ⟨"m", 0, 1⟩)], 0⟩ ∧
    pow_rational ⟨[("m", ⟨"m", 0, 1⟩)], 0⟩ 0 = ⟨[("m", ⟨"m", 0, 0⟩)], 0⟩ ∧
    ¬ terms_invariant (pow_rational ⟨[("m", ⟨"m", 0, 1⟩)], 0⟩ 0) := by
  refine ⟨by decide, by decide, by decide⟩

/-- C8: multiplying or dividing a Unit by any non-Unit operand fails with
the dispatch `TypeError` (the design's `TypeMismatchError`) and produces
no result Unit. -/
theorem C8_non_unit_operand (u : Unit) (x : PyVal)
    (h : ∀ v : Unit, x ≠ PyVal.unit v) :
    unit_mul u x = .error .typeMismatchError ∧
    unit_div u x = .error .typeMismatchError := by
  cases x
  case unit v => exact absurd rfl (h v)
  all_goals exact ⟨rfl, rfl⟩

/-- C8 witness: the bare scalar 2. -/
theorem C8_non_unit_operand_witness :
    unit_mul ⟨[], 0⟩ (PyVal.int 2) = .error .typeMismatchError ∧
    unit_div ⟨[], 0⟩ (PyVal.int 2) = .error .typeMismatchError :=
  C8_non_unit_operand ⟨[], 0⟩ (PyVal.int 2) (fun _v h => PyVal.noConfusion h)

/-- C9 counterexample: on the tag `"/m"` the source splitter drops the
whole segment (its first piece is empty), returning no tokens, while the
splitter described by the claim ("the first non-empty piece of each
segment" goes to the numerator) would return numerator `{"m"}`. -/
theorem C9_first_nonempty_cx :
    numerator_denominator "/m" = ([], []) ∧
    numerator_denominatorClaim "/m" = (["m"], []) ∧
    numerator_denominatorClaim "/m" ≠ numerator_denominator "/m" := by
  refine ⟨by decide, by decide, by decide⟩

/-- C10: raising any Unit to a float exponent whose fractional part is
exactly zero (an integer-valued float, `den = 1`) fails with
`ZeroDivisionError`: `_pow_float` inverts the fractional remainder without
guarding against zero. -/
theorem C10_integer_float_pow (u : Unit) (q : ℚ) (h : q.den = 1) :
    unit_pow u (PyVal.float q) = .error .zeroDivisionError := by
  show pow_float u q = .error .zeroDivisionError
  unfold pow_float
  dsimp only
  have hq : (q.num : ℚ) = q := (Rat.den_eq_one_iff q).mp h
  have hfloor : q.floor = q.num := by
    unfold Rat.floor
    simp [h]
  rw [hfloor, hq]
  simp

/-- C10 witness: the float 2.0. -/
theorem C10_integer_float_pow_witness :
    unit_pow ⟨[], 0⟩ (PyVal.float 2) = .error .zeroDivisionError :=
  C10_integer_float_pow ⟨[], 0⟩ 2 (by decide)

end units

namespace units

/-- C4: for every base glyph in the representative supported set (bare and
SI-prefixed) and every small integer power, rendering the parsed unit and
re-parsing the rendered string yields a Unit equal to the original. -/
theorem C4_round_trip :
    (base_glyphs.all fun g => small_powers.all fun p => round_trips g p) = true := by
  decide

/-- C6 amended: the `power != 0` invariant holds for every Unit produced by
parsing a tag, by multiplication or division of an invariant-satisfying
Unit by any operand, and by exponentiation by any *nonzero* rational; at
`n = 0` the code instead stores zero-power terms (see the counterexample). -/
theorem C6_invariant_after_ops :
    (∀ (tag : String) (u : Unit), parse_tag tag = .ok u → terms_invariant u) ∧
    (∀ (a : Unit) (x : PyVal) (r : Unit), terms_invariant a →
      unit_mul a x = .ok r → terms_invariant r) ∧
    (∀ (a : Unit) (x : PyVal) (r : Unit), terms_invariant a →
      unit_div a x = .ok r → terms_invariant r) ∧
    (∀ (u : Unit) (n : ℚ), terms_invariant u → n ≠ 0 →
      terms_invariant (pow_rational u n)) := by
  refine ⟨?_, ?_, ?_, ?_⟩
  · intro tag u h
    unfold parse_tag at h
    cases hts : signed_triples tag with
    | error e => rw [hts] at h; cases h
    | ok ts =>
      rw [hts] at h
      cases h
      exact terms_invariant_finalize (groupsOf ts)
  · intro a x r ha h
    cases x <;> cases h
    exact terms_invariant_mul_Unit a _ 1 ha
  · intro a x r ha h
    cases x <;> cases h
    exact terms_invariant_mul_Unit a _ (-1) ha
  · intro u n hu hn
    exact terms_invariant_pow_rational u n hu hn

/-- C6 amended, witness: `Unit('m')`, `Unit('m') * Unit('s')`,
`Unit('m') / Unit('s')` and `Unit('m') ** 2` all satisfy the invariant. -/
theorem C6_invariant_after_ops_witness :
    terms_invariant (⟨[("m", ⟨"m", 0, 1⟩)], 0⟩ : Unit) ∧
    terms_invariant (mul_Unit ⟨[("m", ⟨"m", 0, 1⟩)], 0⟩ ⟨[("s", ⟨"s", 0, 1⟩)], 0⟩ 1) ∧
    terms_invariant (mul_Unit ⟨[("m", ⟨"m", 0, 1⟩)], 0⟩ ⟨[("s", ⟨"s", 0, 1⟩)], 0⟩ (-1)) ∧
    terms_invariant (pow_rational ⟨[("m", ⟨"m", 0, 1⟩)], 0⟩ 2) :=
  ⟨C6_invariant_after_ops.1 "m" ⟨[("m", ⟨"m", 0, 1⟩)], 0⟩ (by decide),
   C6_invariant_after_ops.2.1 ⟨[("m", ⟨"m", 0, 1⟩)], 0⟩
     (.unit ⟨[("s", ⟨"s", 0, 1⟩)], 0⟩) _ (by decide) rfl,
   C6_invariant_after_ops.2.2.1 ⟨[("m", ⟨"m", 0, 1⟩)], 0⟩
     (.unit ⟨[("s", ⟨"s", 0, 1⟩)], 0⟩) _ (by decide) rfl,
   C6_invariant_after_ops.2.2.2 ⟨[("m", ⟨"m", 0, 1⟩)], 0⟩ 2 (by decide) (by decide)⟩

/-- C7: for any parsed tag whose Unit has residual power of ten zero (no
internally self-canceling prefix mismatch), dividing the Unit by itself
gives the dimensionless Unit (empty terms, residual zero); even the
source's own `__eq__` confirms it (empty dicts compare without touching
`SingleDimension.__eq__`). -/
theorem C7_self_division (t : String) (u : Unit)
    (_hp : parse_tag t = .ok u) (h0 : u.log10_pref = 0) :
    unit_div u (.unit u) = .ok ⟨[], 0⟩ ∧
    unit_eq (mul_Unit u u (-1)) ⟨[], 0⟩ = .ok true := by
  have key : mul_Unit u u (-1) = ⟨[], 0⟩ := by
    unfold mul_Unit
    dsimp only
    have h1 : u.terms.foldl (mul_merge_step u u (-1)) ⟨[], 0⟩ = ⟨[], 0⟩ := by
      apply foldl_fixed
      intro r kv _
      unfold mul_merge_step
      dsimp only
      rw [if_neg, if_neg]
      · intro hne
        exact hne (by ring)
      · intro hand
        exact hand.2 (by ring)
    have h2 : u.terms.foldl (mul_carry_step u (u.terms.map Prod.fst)) ⟨[], 0⟩ =
        ⟨[], 0⟩ := by
      apply foldl_fixed
      intro r kv hkv
      unfold mul_carry_step
      dsimp only
      rw [if_pos]
      exact List.elem_eq_true_of_mem (List.mem_map_of_mem Prod.fst hkv)
    rw [h1, h2, h0]
    decide
  refine ⟨?_, ?_⟩
  · show Except.ok (mul_Unit u u (-1)) = Except.ok (⟨[], 0⟩ : Unit)
    rw [key]
  · rw [key]
    decide

/-- C7 witness: `divide(parse("V"), parse("V"))` is dimensionless. -/
theorem C7_self_division_witness :
    unit_div ⟨[("V", ⟨"V", 0, 1⟩)], 0⟩ (.unit ⟨[("V", ⟨"V", 0, 1⟩)], 0⟩) =
      .ok ⟨[], 0⟩ ∧
    unit_eq (mul_Unit ⟨[("V", ⟨"V", 0, 1⟩)], 0⟩ ⟨[("V", ⟨"V", 0, 1⟩)], 0⟩ (-1))
      ⟨[], 0⟩ = .ok true :=
  C7_self_division "V" ⟨[("V", ⟨"V", 0, 1⟩)], 0⟩ (by decide) (by decide)

end units

namespace units

/-! ### Grouping lemmas for `parse_tag` (claim C3) -/

/-- `lookup` misses exactly the keys absent from an association list. -/
theorem lookup_eq_none_iff {β : Type} (l : List (String × β)) (g : String) :
    l.lookup g = none ↔ g ∉ l.map Prod.fst := by
  induction l with
  | nil => simp [List.lookup]
  | cons x xs ih =>
    by_cases hk : g = x.1
    · have hb : (g == x.1) = true := beq_iff_eq.mpr hk
      simp [List.lookup, hb, hk]
    · have hb : (g == x.1) = false := beq_eq_false_iff_ne.mpr hk
      simp [List.lookup, hb, hk, ih]

/-- With distinct keys, every entry is what `lookup` finds for its key. -/
theorem lookup_of_mem_nodup {β : Type} {l : List (String × β)}
    (hnd : (l.map Prod.fst).Nodup) {kv : String × β} (hm : kv ∈ l) :
    l.lookup kv.1 = some kv.2 := by
  induction l with
  | nil => cases hm
  | cons x xs ih =>
    rcases List.mem_cons.mp hm with he | hmem
    · rw [he]
      have hb : (x.1 == x.1) = true := beq_iff_eq.mpr rfl
      simp [List.lookup, hb]
    · have hk : kv.1 ≠ x.1 := by
        intro h
        have hx : x.1 ∈ xs.map Prod.fst := by
          rw [← h]
          exact List.mem_map_of_mem Prod.fst hmem
        exact (List.nodup_cons.mp (by simpa using hnd)).1 hx
      have hb : (kv.1 == x.1) = false := beq_eq_false_iff_ne.mpr hk
      have hxs : (xs.map Prod.fst).Nodup := (List.nodup_cons.mp (by simpa using hnd)).2
      simp [List.lookup, hb]
      exact ih hxs hmem

/-- `setdefault`-append: lookup after `add_to_group`. -/
theorem lookup_add_to_group (acc : List (String × List (ℚ × ℚ)))
    (g : String) (pr : ℚ × ℚ) (k : String) :
    (add_to_group acc g pr).lookup k =
      if k = g then some (((acc.lookup g).getD []) ++ [pr]) else acc.lookup k := by
  induction acc with
  | nil =>
    by_cases hk : k = g
    · have hb : (k == g) = true := beq_iff_eq.mpr hk
      simp [add_to_group, List.lookup, hb, hk]
    · have hb : (k == g) = false := beq_eq_false_iff_ne.mpr hk
      simp [add_to_group, List.lookup, hb, hk]
  | cons x xs ih =>
    rcases x with ⟨k0, l0⟩
    by_cases h0 : k0 = g
    · subst h0
      by_cases hk : k = k0
      · subst hk
        have hb : (k == k) = true := beq_iff_eq.mpr rfl
        simp [add_to_group, List.lookup, hb]
      · have hb : (k == k0) = false := beq_eq_false_iff_ne.mpr hk
        simp [add_to_group, List.lookup, hb, hk]
    · by_cases hk : k = k0
      · subst hk
        have hb : (k == k) = true := beq_iff_eq.mpr rfl
        have hg : (k = g) = False := by
          simp [h0]
        simp [add_to_group, List.lookup, hb, h0, hg]
      · have hb : (k == k0) = false := beq_eq_false_iff_ne.mpr hk
        by_cases hkg : k = g
        · subst hkg
          have hgb : (k0 == k) = false := beq_eq_false_iff_ne.mpr (fun h => hk h.symm)
          simp [add_to_group, List.lookup, hb, h0, ih, hgb]
        · simp [add_to_group, List.lookup, hb, h0, ih, hkg]

end units

namespace units

/-- Splitting a filter over a cons (convenience form for triples). -/
theorem trip_pairs_cons (t : Triple) (ts : List Triple) (g : String) :
    trip_pairs (t :: ts) g =
      if t.2.1 = g then (t.1, t.2.2) :: trip_pairs ts g else trip_pairs ts g := by
  by_cases h : t.2.1 = g
  · simp [trip_pairs, List.filter_cons, h]
  · simp [trip_pairs, List.filter_cons, h]

/-- The grouping fold, started from any accumulator: afterwards a key maps
to its prior list extended by all pairs of matching triples. -/
theorem lookup_groups_fold (ts : List Triple)
    (acc : List (String × List (ℚ × ℚ))) (g : String) :
    (ts.foldl (fun acc t => add_to_group acc t.2.1 (t.1, t.2.2)) acc).lookup g =
      match acc.lookup g with
      | some l => some (l ++ trip_pairs ts g)
      | none =>
        if trip_pairs ts g = [] then none else some (trip_pairs ts g) := by
  induction ts generalizing acc with
  | nil =>
    cases h : acc.lookup g with
    | none => simp [trip_pairs, h]
    | some l => simp [trip_pairs, h]
  | cons t ts ih =>
    rw [List.foldl_cons, ih]
    rw [lookup_add_to_group]
    by_cases hg : g = t.2.1
    · rw [if_pos hg]
      rw [trip_pairs_cons, if_pos hg.symm]
      cases h : acc.lookup g with
      | none =>
        have h2 : acc.lookup t.2.1 = none := by
          rw [← hg]; exact h
        simp [h2]
      | some l =>
        have h2 : acc.lookup t.2.1 = some l := by
          rw [← hg]; exact h
        simp [h2]
    · rw [if_neg hg]
      have hcons : trip_pairs (t :: ts) g = trip_pairs ts g := by
        rw [trip_pairs_cons]
        exact if_neg (fun h => hg h.symm)
      rw [hcons]

/-- `all_tags[g]` after grouping is exactly the signed pairs of the
triples with base glyph `g`, in order. -/
theorem lookup_groupsOf (ts : List Triple) (g : String) :
    (groupsOf ts).lookup g =
      if trip_pairs ts g = [] then none else some (trip_pairs ts g) := by
  unfold groupsOf
  rw [lookup_groups_fold]
  simp [List.lookup]

/-- The keys produced by one `setdefault`-append. -/
theorem keys_add_to_group (acc : List (String × List (ℚ × ℚ)))
    (g : String) (pr : ℚ × ℚ) :
    (add_to_group acc g pr).map Prod.fst =
      if g ∈ acc.map Prod.fst then acc.map Prod.fst
      else acc.map Prod.fst ++ [g] := by
  induction acc with
  | nil => simp [add_to_group]
  | cons x xs ih =>
    rcases x with ⟨k0, l0⟩
    by_cases h0 : k0 = g
    · subst h0
      simp [add_to_group]
    · have hne : ¬g = k0 := fun h => h0 h.symm
      by_cases hmem : g ∈ xs.map Prod.fst
      · simp [add_to_group, h0, ih, hmem, hne]
      · simp [add_to_group, h0, ih, hmem, hne]

/-- Grouping keeps the key list duplicate-free. -/
theorem keys_groups_fold_nodup (ts : List Triple)
    (acc : List (String × List (ℚ × ℚ))) (h : (acc.map Prod.fst).Nodup) :
    ((ts.foldl (fun acc t => add_to_group acc t.2.1 (t.1, t.2.2)) acc).map
      Prod.fst).Nodup := by
  induction ts generalizing acc with
  | nil => exact h
  | cons t ts ih =>
    rw [List.foldl_cons]
    refine ih _ ?_
    rw [keys_add_to_group]
    by_cases hmem : t.2.1 ∈ acc.map Prod.fst
    · rw [if_pos hmem]; exact h
    · rw [if_neg hmem]
      simp [List.nodup_append, h, hmem]

/-- The grouped keys are duplicate-free. -/
theorem keys_groupsOf_nodup (ts : List Triple) :
    ((groupsOf ts).map Prod.fst).Nodup :=
  keys_groups_fold_nodup ts [] (by simp)

/-- A glyph is a grouped key exactly when some triple carries it. -/
theorem trip_pairs_eq_nil_iff (ts : List Triple) (g : String) :
    trip_pairs ts g = [] ↔ g ∉ ts.map (fun t => t.2.1) := by
  rw [trip_pairs, List.map_eq_nil_iff, List.filter_eq_nil_iff]
  simp only [List.mem_map, decide_eq_true_eq, not_exists, not_and]

/-- A glyph is a grouped key exactly when some triple carries it. -/
theorem mem_keys_groupsOf (ts : List Triple) (g : String) :
    g ∈ (groupsOf ts).map Prod.fst ↔ g ∈ ts.map (fun t => t.2.1) := by
  rw [← not_iff_not, ← lookup_eq_none_iff, lookup_groupsOf]
  by_cases hp : trip_pairs ts g = []
  · rw [if_pos hp]
    constructor
    · intro _
      exact (trip_pairs_eq_nil_iff ts g).mp hp
    · intro _
      rfl
  · rw [if_neg hp]
    constructor
    · intro h
      cases h
    · intro hmem
      exact absurd ((trip_pairs_eq_nil_iff ts g).mpr hmem) hp

end units

namespace units

/-- The pairs' powers sum to the glyph's summed power. -/
theorem trip_pairs_sum_snd (ts : List Triple) (g : String) :
    ((trip_pairs ts g).map Prod.snd).sum = trip_power ts g := by
  rw [trip_pairs, trip_power, List.map_map]
  rfl

/-- The pairs' powers of ten sum to the glyph's summed power of ten. -/
theorem trip_pairs_sum_fst (ts : List Triple) (g : String) :
    ((trip_pairs ts g).map Prod.fst).sum = trip_log10 ts g := by
  rw [trip_pairs, trip_log10, List.map_map]
  rfl

/-- One step of `parse_tag`'s final loop, written with the emitted term and
residual contribution explicit. -/
theorem finalize_step_eq (acc : Unit) (kv : String × List (ℚ × ℚ)) :
    finalize_step acc kv =
      ⟨acc.terms ++ (fin_term kv).toList, acc.log10_pref + fin_residual kv⟩ := by
  unfold finalize_step fin_term fin_residual
  dsimp only
  by_cases hP : (kv.2.map Prod.snd).sum = 0
  · by_cases hL : (kv.2.map Prod.fst).sum = 0
    · rw [if_neg (fun hand => hand.1 hL), if_neg (fun h => h hP)]
      simp [hP, hL]
    · rw [if_pos ⟨hL, hP⟩]
      simp [hP]
  · rw [if_neg (fun hand => hP hand.2), if_neg hP]
    rw [if_pos hP]
    simp [hP, Unit.set]

/-- `parse_tag`'s final loop from any accumulator. -/
theorem finalize_foldl (gs : List (String × List (ℚ × ℚ))) (acc : Unit) :
    gs.foldl finalize_step acc =
      ⟨acc.terms ++ gs.filterMap fin_term,
       acc.log10_pref + (gs.map fin_residual).sum⟩ := by
  induction gs generalizing acc with
  | nil => simp
  | cons kv gs ih =>
    rw [List.foldl_cons, ih, finalize_step_eq]
    dsimp only
    rw [List.filterMap_cons, List.map_cons, List.sum_cons]
    cases hft : fin_term kv with
    | none => simp [add_assoc]
    | some x => simp [add_assoc]

/-- The closed form of `parse_tag`'s final loop. -/
theorem finalize_eq (gs : List (String × List (ℚ × ℚ))) :
    finalize gs = ⟨gs.filterMap fin_term, (gs.map fin_residual).sum⟩ := by
  rw [finalize, finalize_foldl]
  simp

/-- Keys surviving the final loop come from grouped keys. -/
theorem mem_keys_filterMap_fin_term {gs : List (String × List (ℚ × ℚ))}
    {g : String} (h : g ∈ (gs.filterMap fin_term).map Prod.fst) :
    g ∈ gs.map Prod.fst := by
  obtain ⟨e, he, hge⟩ := List.mem_map.mp h
  obtain ⟨kv, hkv, hft⟩ := List.mem_filterMap.mp he
  have he1 : e.1 = kv.1 := by
    unfold fin_term at hft
    by_cases hP : (kv.2.map Prod.snd).sum = 0
    · rw [if_neg (fun hh => hh hP)] at hft
      cases hft
    · rw [if_pos hP] at hft
      cases hft
      rfl
  exact List.mem_map.mpr ⟨kv, hkv, by rw [← hge, he1]⟩

/-- Looking a glyph up among the emitted terms: present with the summed
values exactly when its summed power is nonzero. -/
theorem lookup_filterMap_fin_term (gs : List (String × List (ℚ × ℚ)))
    (hnd : (gs.map Prod.fst).Nodup) (g : String) :
    (gs.filterMap fin_term).lookup g =
      match gs.lookup g with
      | none => none
      | some l =>
        if (l.map Prod.snd).sum ≠ 0 then
          some ⟨g, (l.map Prod.fst).sum, (l.map Prod.snd).sum⟩
        else none := by
  induction gs with
  | nil => simp [List.lookup]
  | cons kv gs ih =>
    have hnd2 : (kv.1 ∉ gs.map Prod.fst) ∧ (gs.map Prod.fst).Nodup := by
      rw [List.map_cons] at hnd
      exact List.nodup_cons.mp hnd
    rw [List.filterMap_cons]
    by_cases hg : g = kv.1
    · subst hg
      have hlk : List.lookup kv.1 (kv :: gs) = some kv.2 := by
        have hb : (kv.1 == kv.1) = true := beq_iff_eq.mpr rfl
        simp [List.lookup, hb]
      by_cases hP : (kv.2.map Prod.snd).sum = 0
      · have hft : fin_term kv = none := by
          unfold fin_term
          rw [if_neg (fun h => h hP)]
        rw [hft, hlk]
        have hnone : (gs.filterMap fin_term).lookup kv.1 = none := by
          rw [lookup_eq_none_iff]
          intro hmem
          exact hnd2.1 (mem_keys_filterMap_fin_term hmem)
        rw [hnone]
        dsimp only
        rw [if_neg (fun h => h hP)]
      · have hft : fin_term kv =
            some (kv.1, ⟨kv.1, (kv.2.map Prod.fst).sum, (kv.2.map Prod.snd).sum⟩) := by
          unfold fin_term
          rw [if_pos hP]
        rw [hft, hlk]
        have hb : (kv.1 == kv.1) = true := beq_iff_eq.mpr rfl
        dsimp only
        rw [if_pos hP]
        simp [List.lookup, hb]
    · have hb : (g == kv.1) = false := beq_eq_false_iff_ne.mpr hg
      have hlk : List.lookup g (kv :: gs) = List.lookup g gs := by
        simp [List.lookup, hb]
      rw [hlk]
      cases hft : fin_term kv with
      | none => exact ih hnd2.2
      | some x =>
        have hx1 : x.1 = kv.1 := by
          unfold fin_term at hft
          by_cases hP : (kv.2.map Prod.snd).sum = 0
          · rw [if_neg (fun hh => hh hP)] at hft
            cases hft
          · rw [if_pos hP] at hft
            cases hft
            rfl
        have hbx : (g == x.1) = false := by
          rw [hx1]
          exact hb
        rw [show List.lookup g (x :: gs.filterMap fin_term) =
            List.lookup g (gs.filterMap fin_term) by simp [List.lookup, hbx]]
        exact ih hnd2.2

end units

namespace units

/-- What `parse_tag` stores for a glyph, in terms of the summed signed
triples: a term with the summed power of ten and power when the summed
power is nonzero, nothing otherwise. -/
theorem parse_terms_lookup (ts : List Triple) (g : String) :
    (finalize (groupsOf ts)).terms.lookup g =
      if trip_power ts g ≠ 0 then some ⟨g, trip_log10 ts g, trip_power ts g⟩
      else none := by
  rw [finalize_eq]
  dsimp only
  rw [lookup_filterMap_fin_term _ (keys_groupsOf_nodup ts), lookup_groupsOf]
  by_cases hp : trip_pairs ts g = []
  · rw [if_pos hp]
    have h0 : trip_power ts g = 0 := by
      rw [← trip_pairs_sum_snd, hp]
      rfl
    dsimp only
    rw [if_neg (fun h => h h0)]
  · rw [if_neg hp]
    dsimp only
    rw [trip_pairs_sum_snd, trip_pairs_sum_fst]

/-- The residual accumulated by `parse_tag`'s final loop equals the sum of
the summed powers of ten of the fully cancelled glyphs. -/
theorem groups_residual (ts : List Triple) :
    ((groupsOf ts).map fin_residual).sum =
      Finset.sum
        (Finset.filter (fun g => trip_power ts g = 0)
          ((ts.map (fun t => t.2.1)).toFinset))
        (fun g => trip_log10 ts g) := by
  have hval : ∀ kv ∈ groupsOf ts, kv.2 = trip_pairs ts kv.1 := by
    intro kv hkv
    have h1 : (groupsOf ts).lookup kv.1 = some kv.2 :=
      lookup_of_mem_nodup (keys_groupsOf_nodup ts) hkv
    rw [lookup_groupsOf] at h1
    by_cases hp : trip_pairs ts kv.1 = []
    · rw [if_pos hp] at h1
      cases h1
    · rw [if_neg hp] at h1
      injection h1 with h
      exact h.symm
  have hmap : (groupsOf ts).map fin_residual =
      ((groupsOf ts).map Prod.fst).map
        (fun g => if trip_power ts g = 0 then trip_log10 ts g else 0) := by
    rw [List.map_map]
    apply List.map_congr_left
    intro kv hkv
    show fin_residual kv = _
    unfold fin_residual
    rw [hval kv hkv]
    rw [trip_pairs_sum_snd, trip_pairs_sum_fst]
    rfl
  rw [hmap]
  rw [← List.sum_toFinset _ (keys_groupsOf_nodup ts)]
  have hset : ((groupsOf ts).map Prod.fst).toFinset =
      (ts.map (fun t => t.2.1)).toFinset := by
    apply Finset.ext
    intro g
    simp only [List.mem_toFinset]
    exact mem_keys_groupsOf ts g
  rw [hset, Finset.sum_filter]

/-- C3: for every tag accepted by the parser, the resulting Unit stores,
for each glyph, the sums of the signed (denominator-negated) powers and
powers of ten of that glyph's parsed triples — emitting a term exactly
when the summed power is nonzero and otherwise folding the summed power of
ten into the residual — and in particular `parse("kB/MB")` yields no terms
and residual power of ten exactly -3. -/
theorem C3_parse_tag_groups_and_folds :
    (∀ (tag : String) (u : Unit), parse_tag tag = .ok u →
      ∃ ts, signed_triples tag = .ok ts ∧
        (∀ g : String,
          (trip_power ts g ≠ 0 →
            u.terms.lookup g = some ⟨g, trip_log10 ts g, trip_power ts g⟩) ∧
          (trip_power ts g = 0 → u.terms.lookup g = none)) ∧
        u.log10_pref =
          Finset.sum
            (Finset.filter (fun g => trip_power ts g = 0)
              ((ts.map (fun t => t.2.1)).toFinset))
            (fun g => trip_log10 ts g)) ∧
    parse_tag "kB/MB" = .ok ⟨[], -3⟩ := by
  constructor
  · intro tag u h
    unfold parse_tag at h
    cases hts : signed_triples tag with
    | error e =>
      rw [hts] at h
      cases h
    | ok ts =>
      rw [hts] at h
      cases h
      refine ⟨ts, rfl, ?_, ?_⟩
      · intro g
        constructor
        · intro hPow
          rw [parse_terms_lookup, if_pos hPow]
        · intro hPow
          rw [parse_terms_lookup, if_neg (fun h => h hPow)]
      · rw [finalize_eq]
        exact groups_residual ts
  · decide

/-- C3 witness: the tag `"V/Hz^1/2"`, whose parse succeeds with two terms
and residual 0. -/
theorem C3_parse_tag_witness :
    ∃ ts, signed_triples "V/Hz^1/2" = .ok ts ∧
      (∀ g : String,
        (trip_power ts g ≠ 0 →
          (Unit.mk [("V", ⟨"V", 0, 1⟩), ("Hz", ⟨"Hz", 0, -(1/2)⟩)] 0).terms.lookup g =
            some ⟨g, trip_log10 ts g, trip_power ts g⟩) ∧
        (trip_power ts g = 0 →
          (Unit.mk [("V", ⟨"V", 0, 1⟩), ("Hz", ⟨"Hz", 0, -(1/2)⟩)] 0).terms.lookup g =
            none)) ∧
      (Unit.mk [("V", ⟨"V", 0, 1⟩), ("Hz", ⟨"Hz", 0, -(1/2)⟩)] 0).log10_pref =
        Finset.sum
          (Finset.filter (fun g => trip_power ts g = 0)
            ((ts.map (fun t => t.2.1)).toFinset))
          (fun g => trip_log10 ts g) :=
  C3_parse_tag_groups_and_folds.1 "V/Hz^1/2"
    (Unit.mk [("V", ⟨"V", 0, 1⟩), ("Hz", ⟨"Hz", 0, -(1/2)⟩)] 0) (by decide)

end units

namespace units

/-- The splitter's fold, from any accumulator pair. -/
theorem nd_foldl (segs : List (List Char)) (acc : List String × List String) :
    segs.foldl nd_step acc =
      (acc.1 ++ segs.filterMap nd_first_token,
       acc.2 ++ segs.flatMap nd_rest_tokens) := by
  induction segs generalizing acc with
  | nil => simp
  | cons part segs ih =>
    rw [List.foldl_cons, ih]
    rw [List.filterMap_cons, List.flatMap_cons]
    unfold nd_step nd_first_token nd_rest_tokens
    cases hs : splitSlash part with
    | nil => simp
    | cons first rest =>
      dsimp only
      by_cases hf : first ≠ []
      · simp [hf, List.append_assoc]
      · push_neg at hf
        subst hf
        simp

/-- C9 amended: the tag splitter splits on `*`, then splits each segment
on `/` characters immediately followed by a non-digit character (a
trailing `/` does not split); a segment whose first piece is non-empty
sends that piece to the numerator and all remaining pieces to the
denominator, and a segment whose first piece is empty contributes nothing;
in particular `numerator_denominator("Hz*m/s^3/4")` yields numerator
`{"Hz", "m"}` and denominator `{"s^3/4"}`, the `/` inside the exponent not
being treated as division. -/
theorem C9_split (tag : String) :
    numerator_denominator tag =
      ((splitOn '*' tag.toList).filterMap nd_first_token,
       (splitOn '*' tag.toList).flatMap nd_rest_tokens) ∧
    numerator_denominator "Hz*m/s^3/4" = (["Hz", "m"], ["s^3/4"]) := by
  constructor
  · rw [numerator_denominator, nd_foldl]
    simp
  · decide

end units
